import Mathlib

/-!
Verification development for a networked blackjack client/server.

The wire codec (protocol.py) is embedded at the byte level: a Python
`bytes` value is a `List Nat` whose entries are the byte values, and
`struct.pack`/`struct.unpack` with big-endian fixed layouts become
explicit base-256 serialisation.  Text fields (server/client names)
are modelled by their UTF-8 byte encoding, so `str.encode` is the
identity on the model.  Fallible Python functions (those that raise
`ValueError`) become `Except String` computations.

The game engine (server.py) is embedded with the network made
explicit: `play_one_round` takes the shuffled deck as a list (cards
are drawn from the end, as `list.pop()` does) and the stream of client
decisions as a list, and returns the round result together with the
trace of server payload messages sent, or an error when the deck is
exhausted or the decision stream runs dry where the real server would
block on the socket.
-/

namespace Blackjack

/-! ## Codec: constants (protocol.py) -/

def MAGIC_COOKIE : Nat := 0xabcddcba

def MSG_TYPE_OFFER : Nat := 0x2
def MSG_TYPE_REQUEST : Nat := 0x3
def MSG_TYPE_PAYLOAD : Nat := 0x4

/-- The bytes literal b"Hittt". -/
def DECISION_HIT : List Nat := [72, 105, 116, 116, 116]

/-- The bytes literal b"Stand". -/
def DECISION_STAND : List Nat := [83, 116, 97, 110, 100]

def RES_NOT_OVER : Nat := 0x0
def RES_TIE : Nat := 0x1
def RES_LOSS : Nat := 0x2
def RES_WIN : Nat := 0x3

/-! ## Codec: big-endian serialisation of `struct` integer fields -/

/-- Big-endian encoding of a 16-bit field (`struct` format "H"). -/
def be2 (n : Nat) : List Nat := [n / 256 % 256, n % 256]

/-- Big-endian encoding of a 32-bit field (`struct` format "I"). -/
def be4 (n : Nat) : List Nat :=
  [n / 16777216 % 256, n / 65536 % 256, n / 256 % 256, n % 256]

/-- Big-endian value of a byte slice. -/
def beVal (l : List Nat) : Nat := l.foldl (fun a b => a * 256 + b) 0

/-- Whether an `Except` computation failed. -/
def isErr {α : Type} : Except String α → Bool
  | .error _ => true
  | .ok _ => false

/-! ## Codec: fixed-length name fields -/

/-- `encode_fixed_name` from protocol.py, on UTF-8 bytes: pad with null
bytes up to 32, truncate beyond 32. -/
def encode_fixed_name (b : List Nat) : List Nat :=
  if 32 ≤ b.length then b.take 32
  else b ++ List.replicate (32 - b.length) 0

/-- `decode_fixed_name` from protocol.py, on bytes: the prefix before
the first null byte (`raw.split(b"\x00", 1)[0]`). -/
def decode_fixed_name (raw : List Nat) : List Nat :=
  raw.takeWhile (fun x => x ≠ 0)

/-! ## Codec: offer messages -/

/-- `pack_offer` from protocol.py: magic, type 0x2, u16 port, 32-byte name. -/
def pack_offer (server_tcp_port : Nat) (server_name : List Nat) :
    Except String (List Nat) :=
  if server_tcp_port ≤ 65535 then
    .ok (be4 MAGIC_COOKIE ++ [MSG_TYPE_OFFER] ++ be2 server_tcp_port ++
      encode_fixed_name server_name)
  else .error "server_tcp_port must be in 0..65535"

/-- `unpack_offer` from protocol.py. -/
def unpack_offer (data : List Nat) : Except String (Nat × List Nat) :=
  if data.length ≠ 39 then .error "Bad offer length"
  else
    let cookie := beVal (data.take 4)
    let mtype := beVal ((data.drop 4).take 1)
    let port := beVal ((data.drop 5).take 2)
    let name_raw := data.drop 7
    if cookie ≠ MAGIC_COOKIE then .error "Bad magic cookie"
    else if mtype ≠ MSG_TYPE_OFFER then .error "Not an offer packet"
    else .ok (port, decode_fixed_name name_raw)

/-! ## Codec: request messages -/

/-- `pack_request` from protocol.py: magic, type 0x3, u8 rounds, 32-byte name. -/
def pack_request (num_rounds : Nat) (client_name : List Nat) :
    Except String (List Nat) :=
  if 1 ≤ num_rounds ∧ num_rounds ≤ 255 then
    .ok (be4 MAGIC_COOKIE ++ [MSG_TYPE_REQUEST] ++ [num_rounds] ++
      encode_fixed_name client_name)
  else .error "num_rounds must be in 1..255"

/-- `unpack_request` from protocol.py. -/
def unpack_request (data : List Nat) : Except String (Nat × List Nat) :=
  if data.length ≠ 38 then .error "Bad request length"
  else
    let cookie := beVal (data.take 4)
    let mtype := beVal ((data.drop 4).take 1)
    let num_rounds := beVal ((data.drop 5).take 1)
    let name_raw := data.drop 6
    if cookie ≠ MAGIC_COOKIE then .error "Bad magic cookie"
    else if mtype ≠ MSG_TYPE_REQUEST then .error "Not a request packet"
    else if num_rounds = 0 then .error "num_rounds cannot be 0"
    else .ok (num_rounds, decode_fixed_name name_raw)

/-! ## Codec: game payload messages -/

/-- `pack_payload_client` from protocol.py: magic, type 0x4, 5-byte decision. -/
def pack_payload_client (decision : List Nat) : Except String (List Nat) :=
  if decision = DECISION_HIT ∨ decision = DECISION_STAND then
    .ok (be4 MAGIC_COOKIE ++ [MSG_TYPE_PAYLOAD] ++ decision)
  else .error "decision must be Hittt or Stand"

/-- `unpack_payload_client` from protocol.py. -/
def unpack_payload_client (data : List Nat) : Except String (List Nat) :=
  if data.length ≠ 10 then .error "Bad client payload length"
  else
    let cookie := beVal (data.take 4)
    let mtype := beVal ((data.drop 4).take 1)
    let decision := data.drop 5
    if cookie ≠ MAGIC_COOKIE then .error "Bad magic cookie"
    else if mtype ≠ MSG_TYPE_PAYLOAD then .error "Not a payload packet"
    else if decision = DECISION_HIT ∨ decision = DECISION_STAND then
      .ok decision
    else .error "Bad decision"

/-- `pack_payload_server` from protocol.py: magic, type 0x4, u8 result,
u16 rank, u8 suit. -/
def pack_payload_server (result rank suit : Nat) : Except String (List Nat) :=
  if ¬ result ≤ 3 then .error "result must be 0..3"
  else if ¬ (1 ≤ rank ∧ rank ≤ 13) then .error "rank must be 1..13"
  else if ¬ suit ≤ 3 then .error "suit must be 0..3"
  else
    .ok (be4 MAGIC_COOKIE ++ [MSG_TYPE_PAYLOAD] ++ [result] ++ be2 rank ++
      [suit])

/-- `unpack_payload_server` from protocol.py. -/
def unpack_payload_server (data : List Nat) :
    Except String (Nat × Nat × Nat) :=
  if data.length ≠ 9 then .error "Bad server payload length"
  else
    let cookie := beVal (data.take 4)
    let mtype := beVal ((data.drop 4).take 1)
    let result := beVal ((data.drop 5).take 1)
    let rank := beVal ((data.drop 6).take 2)
    let suit := beVal ((data.drop 8).take 1)
    if cookie ≠ MAGIC_COOKIE then .error "Bad magic cookie"
    else if mtype ≠ MSG_TYPE_PAYLOAD then .error "Not a payload packet"
    else .ok (result, rank, suit)

/-! ## Hand engine (server.py / client.py) -/

/-- `card_points` from server.py: Ace counts 11, face cards 10. -/
def card_points (rank : Nat) : Nat :=
  if rank = 1 then 11
  else if 11 ≤ rank then 10
  else rank

/-- The while loop of `hand_value`: demote Aces from 11 to 1 while the
total exceeds 21 and Aces remain. -/
def reduceAces (total : Nat) : Nat → Nat
  | 0 => total
  | aces + 1 => if 21 < total then reduceAces (total - 10) aces else total

/-- `hand_value` from server.py and client.py. -/
def hand_value (ranks : List Nat) : Nat :=
  reduceAces ((ranks.map card_points).sum)
    ((ranks.filter (fun r => r = 1)).length)

/-- Modelled from the spec wording for comparison with `hand_value`:
demote counted Aces one at a time until the total is at most 21 or no
Ace remains. -/
def softReduce (t : Nat) : Nat → Nat
  | 0 => t
  | a + 1 => if t ≤ 21 then t else softReduce (t - 10) a

/-- Modelled from the spec wording (soft-ace reference algorithm):
sum per-card points with Ace as 11 and face cards as 10, then apply
the soft-ace reduction once per Ace while the total exceeds 21. -/
def softAceValue (ranks : List Nat) : Nat :=
  softReduce
    ((ranks.map (fun r => if r = 1 then 11 else if 11 ≤ r then 10 else r)).sum)
    (ranks.count 1)

/-- The hard total of a hand: every Ace counted as 1. -/
def hardTotal (ranks : List Nat) : Nat :=
  (ranks.map (fun r => if r = 1 then 1 else card_points r)).sum

/-! ## Deck (server.py) -/

/-- A playing card, as the `(rank, suit)` pairs of server.py. -/
structure Card where
  rank : Nat
  suit : Nat
deriving DecidableEq, Repr

/-- `fresh_deck` from server.py before shuffling: suits outer, ranks
1..13 inner.  `random.shuffle` is modelled by quantifying over all
permutations of this list. -/
def fresh_deck : List Card :=
  (List.range 4).flatMap (fun suit =>
    (List.range 13).map (fun i => ⟨i + 1, suit⟩))

/-- `draw_from_deck` from server.py: `deck.pop()` removes the last
element.  Returns the card and the remaining deck, or `none` on an
empty deck. -/
def draw_from_deck (deck : List Card) : Option (Card × List Card) :=
  match deck.getLast? with
  | none => none
  | some c => some (c, deck.dropLast)

/-! ## Round state machine (server.py `play_one_round`) -/

/-- A client decision, as returned by `unpack_payload_client` (which
only ever yields the two literals). -/
inductive Decision where
  | hit
  | stand
deriving DecidableEq, Repr

/-- Failure modes of the round model: the deck ran out at a draw, or
the modelled decision stream ran out where the server would block
reading the socket. -/
inductive RoundErr where
  | deckExhausted
  | noDecision
deriving DecidableEq, Repr

/-- A server payload message as a semantic triple
`(result, rank, suit)`, the arguments of `pack_payload_server` at each
`conn.sendall` site. -/
abbrev SMsg : Type := Nat × Nat × Nat

/-- A `RES_NOT_OVER` card message. -/
def cardMsg (c : Card) : SMsg := (RES_NOT_OVER, c.rank, c.suit)

/-- The ranks of a list of cards, `[r for (r, _) in cards]`. -/
def ranksOf (cs : List Card) : List Nat := cs.map Card.rank

/-- Result of the player-turn loop. -/
structure PTRes where
  deck : List Card
  cards : List Card
  rest : List Decision
  sent : List SMsg
  busted : Bool
deriving Repr

/-- The player-turn loop of `play_one_round`: at the top of each
iteration the hand is checked for a bust (immediate loss, no further
read); otherwise one decision is consumed — `Stand` exits the loop,
`Hit` draws a card, sends it and loops. -/
def playerTurn : List Decision → List Card → List Card →
    Except RoundErr PTRes
  | [], deck, cards =>
    if 21 < hand_value (ranksOf cards) then
      .ok ⟨deck, cards, [], [], true⟩
    else .error .noDecision
  | .stand :: rest, deck, cards =>
    if 21 < hand_value (ranksOf cards) then
      .ok ⟨deck, cards, .stand :: rest, [], true⟩
    else .ok ⟨deck, cards, rest, [], false⟩
  | .hit :: rest, deck, cards =>
    if 21 < hand_value (ranksOf cards) then
      .ok ⟨deck, cards, .hit :: rest, [], true⟩
    else
      match draw_from_deck deck with
      | none => .error .deckExhausted
      | some (c, deck2) =>
        match playerTurn rest deck2 (cards ++ [c]) with
        | .error e => .error e
        | .ok r => .ok { r with sent := cardMsg c :: r.sent }

/-- The dealer-turn loop of `play_one_round`: draw and send while the
dealer hand value is below 17. -/
def dealerTurn (deck cards : List Card) :
    Except RoundErr (List Card × List Card × List SMsg) :=
  if 17 ≤ hand_value (ranksOf cards) then .ok (deck, cards, [])
  else
    match h : draw_from_deck deck with
    | none => .error .deckExhausted
    | some (c, deck2) =>
      match dealerTurn deck2 (cards ++ [c]) with
      | .error e => .error e
      | .ok (dk, cs, ms) => .ok (dk, cs, cardMsg c :: ms)
termination_by deck.length
decreasing_by
  simp only [draw_from_deck] at h
  cases hd : deck.getLast? with
  | none => rw [hd] at h; cases h
  | some x =>
    rw [hd] at h
    cases h
    have hne : deck ≠ [] := by
      intro hnil
      rw [hnil] at hd
      cases hd
    have hlen : 0 < deck.length := List.length_pos.mpr hne
    simp [List.length_dropLast]
    omega

/-- The outcome comparison at the end of `play_one_round`
(server.py lines 160..171). -/
def resolveOutcome (p_total d_total : Nat) : Nat :=
  if 21 < d_total then RES_WIN
  else if d_total < p_total then RES_WIN
  else if p_total < d_total then RES_LOSS
  else RES_TIE

/-- The observable outcome of one round. -/
structure RoundOut where
  result : Nat
  player : List Card
  dealer : List Card
  rest : List Decision
  trace : List SMsg
deriving Repr

/-- `play_one_round` from server.py, with the shuffled deck and the
client decision stream made explicit, returning the result code, both
final hands, the unread decisions and the trace of sent server
payloads. -/
def play_one_round (deck0 : List Card) (ds : List Decision) :
    Except RoundErr RoundOut :=
  match draw_from_deck deck0 with
  | none => .error .deckExhausted
  | some (p1, deck1) =>
  match draw_from_deck deck1 with
  | none => .error .deckExhausted
  | some (p2, deck2) =>
  match draw_from_deck deck2 with
  | none => .error .deckExhausted
  | some (up, deck3) =>
  match draw_from_deck deck3 with
  | none => .error .deckExhausted
  | some (hidden, deck4) =>
    let dealMsgs : List SMsg := [cardMsg p1, cardMsg p2, cardMsg up]
    match playerTurn ds deck4 [p1, p2] with
    | .error e => .error e
    | .ok pr =>
      if pr.busted then
        .ok ⟨RES_LOSS, pr.cards, [up, hidden], pr.rest,
          dealMsgs ++ pr.sent ++ [(RES_LOSS, 1, 0)]⟩
      else
        match dealerTurn pr.deck [up, hidden] with
        | .error e => .error e
        | .ok (_, dcs, dms) =>
          let res := resolveOutcome (hand_value (ranksOf pr.cards))
            (hand_value (ranksOf dcs))
          .ok ⟨res, pr.cards, dcs, pr.rest,
            dealMsgs ++ pr.sent ++ [cardMsg hidden] ++ dms ++ [(res, 1, 0)]⟩

/-- `send_final_result` from server.py: the terminal result is sent
with the fixed dummy card rank 1, suit 0. -/
def send_final_result (result_code : Nat) : Except String (List Nat) :=
  pack_payload_server result_code 1 0

/-! ## Codec lemmas -/

lemma encode_fixed_name_length (b : List Nat) :
    (encode_fixed_name b).length = 32 := by
  unfold encode_fixed_name
  split
  · simp [List.length_take]
    omega
  · simp
    omega

lemma takeWhile_append_zeros (l : List Nat) (k : Nat)
    (h : ∀ x ∈ l, x ≠ 0) :
    (l ++ List.replicate k 0).takeWhile (fun x => x ≠ 0) = l := by
  induction l with
  | nil =>
    cases k with
    | zero => rfl
    | succ k => simp [List.replicate_succ, List.takeWhile_cons]
  | cons a l ih =>
    have ha : a ≠ 0 := h a (List.mem_cons_self a l)
    rw [List.cons_append, List.takeWhile_cons_of_pos (by simp [ha]),
      ih (fun x hx => h x (List.mem_cons_of_mem a hx))]

lemma decode_encode_name (b : List Nat) (h1 : b.length ≤ 32)
    (h2 : ∀ x ∈ b, x ≠ 0) :
    decode_fixed_name (encode_fixed_name b) = b := by
  unfold encode_fixed_name decode_fixed_name
  split
  · rw [List.take_of_length_le (by omega)]
    have := takeWhile_append_zeros b 0 h2
    simpa using this
  · exact takeWhile_append_zeros b _ h2

lemma be4_magic : be4 MAGIC_COOKIE = [171, 205, 220, 186] := by decide

lemma pack_offer_eq (port : Nat) (name : List Nat) (h : port ≤ 65535) :
    pack_offer port name = .ok (171 :: 205 :: 220 :: 186 :: 2 ::
      (port / 256 % 256) :: (port % 256) :: encode_fixed_name name) := by
  simp only [pack_offer, be4_magic, be2, MSG_TYPE_OFFER, if_pos h]
  simp

lemma pack_request_eq (n : Nat) (name : List Nat) (h1 : 1 ≤ n)
    (h2 : n ≤ 255) :
    pack_request n name = .ok (171 :: 205 :: 220 :: 186 :: 3 :: n ::
      encode_fixed_name name) := by
  simp only [pack_request, be4_magic, MSG_TYPE_REQUEST]
  rw [if_pos ⟨h1, h2⟩]
  simp

lemma pack_payload_server_eq (r rk s : Nat) (h1 : r ≤ 3) (h2 : 1 ≤ rk)
    (h3 : rk ≤ 13) (h4 : s ≤ 3) :
    pack_payload_server r rk s =
      .ok [171, 205, 220, 186, 4, r, rk / 256 % 256, rk % 256, s] := by
  simp only [pack_payload_server, be4_magic, be2, MSG_TYPE_PAYLOAD]
  rw [if_neg (by omega), if_neg (by simp [h2, h3]), if_neg (by omega)]
  simp

lemma unpack_pack_offer (port : Nat) (name : List Nat) (h : port ≤ 65535)
    (h1 : name.length ≤ 32) (h2 : ∀ x ∈ name, x ≠ 0) :
    unpack_offer (171 :: 205 :: 220 :: 186 :: 2 :: (port / 256 % 256) ::
      (port % 256) :: encode_fixed_name name) = .ok (port, name) := by
  unfold unpack_offer
  rw [if_neg (by simp [encode_fixed_name_length])]
  simp only [List.take_succ_cons, List.drop_succ_cons, List.take_zero,
    List.drop_zero]
  rw [if_neg (by decide), if_neg (by decide),
    decode_encode_name name h1 h2]
  have hport : beVal [port / 256 % 256, port % 256] = port := by
    simp [beVal]
    omega
  rw [hport]

lemma unpack_pack_request (n : Nat) (name : List Nat) (h1 : 1 ≤ n)
    (hn : name.length ≤ 32) (hz : ∀ x ∈ name, x ≠ 0) :
    unpack_request (171 :: 205 :: 220 :: 186 :: 3 :: n ::
      encode_fixed_name name) = .ok (n, name) := by
  unfold unpack_request
  rw [if_neg (by simp [encode_fixed_name_length])]
  simp only [List.take_succ_cons, List.drop_succ_cons, List.take_zero,
    List.drop_zero]
  rw [if_neg (by decide), if_neg (by decide)]
  have hb : beVal [n] = n := by simp [beVal]
  rw [hb, if_neg (by omega), decode_encode_name name hn hz]

lemma unpack_pack_payload_server (r rk s : Nat) (h1 : r ≤ 3) (h3 : rk ≤ 13)
    (h4 : s ≤ 3) :
    unpack_payload_server
      [171, 205, 220, 186, 4, r, rk / 256 % 256, rk % 256, s] =
      .ok (r, rk, s) := by
  unfold unpack_payload_server
  rw [if_neg (by simp)]
  simp only [List.take_succ_cons, List.drop_succ_cons, List.take_zero,
    List.drop_zero]
  rw [if_neg (by decide), if_neg (by decide)]
  have hr : beVal [r] = r := by simp [beVal]
  have hs : beVal [s] = s := by simp [beVal]
  have hrk : beVal [rk / 256 % 256, rk % 256] = rk := by
    simp [beVal]
    omega
  rw [hr, hs, hrk]

/-- Claim C5: decoding the encoding of every valid message of every
kind returns the original field values, for offers, requests, client
decisions and server round payloads.  Validity of 32-byte name fields
means a UTF-8 encoding of at most 32 bytes with no embedded null
byte (longer names are truncated and nulls cut short on decode, so
such values are not representable on the wire). -/
theorem claim5_codec_round_trip :
    (∀ port name, port ≤ 65535 → name.length ≤ 32 →
      (∀ x ∈ name, x ≠ 0) →
      ∃ m, pack_offer port name = .ok m ∧
        unpack_offer m = .ok (port, name)) ∧
    (∀ n name, 1 ≤ n → n ≤ 255 → name.length ≤ 32 →
      (∀ x ∈ name, x ≠ 0) →
      ∃ m, pack_request n name = .ok m ∧
        unpack_request m = .ok (n, name)) ∧
    (∀ d, d = DECISION_HIT ∨ d = DECISION_STAND →
      ∃ m, pack_payload_client d = .ok m ∧
        unpack_payload_client m = .ok d) ∧
    (∀ r rk s, r ≤ 3 → 1 ≤ rk → rk ≤ 13 → s ≤ 3 →
      ∃ m, pack_payload_server r rk s = .ok m ∧
        unpack_payload_server m = .ok (r, rk, s)) := by
  refine ⟨?_, ?_, ?_, ?_⟩
  · intro port name h h1 h2
    exact ⟨_, pack_offer_eq port name h, unpack_pack_offer port name h h1 h2⟩
  · intro n name h1 h2 hn hz
    exact ⟨_, pack_request_eq n name h1 h2, unpack_pack_request n name h1 hn hz⟩
  · rintro d (rfl | rfl)
    · exact ⟨[171, 205, 220, 186, 4, 72, 105, 116, 116, 116], by rfl, by rfl⟩
    · exact ⟨[171, 205, 220, 186, 4, 83, 116, 97, 110, 100], by rfl, by rfl⟩
  · intro r rk s h1 h2 h3 h4
    exact ⟨_, pack_payload_server_eq r rk s h1 h2 h3 h4,
      unpack_pack_payload_server r rk s h1 h3 h4⟩

/-- Closed instance of claim C5 at concrete inputs. -/
theorem claim5_codec_round_trip_witness :
    (∃ m, pack_offer 8080 [65, 66] = .ok m ∧
      unpack_offer m = .ok (8080, [65, 66])) ∧
    (∃ m, pack_request 5 [78] = .ok m ∧
      unpack_request m = .ok (5, [78])) ∧
    (∃ m, pack_payload_client DECISION_STAND = .ok m ∧
      unpack_payload_client m = .ok DECISION_STAND) ∧
    (∃ m, pack_payload_server 3 12 2 = .ok m ∧
      unpack_payload_server m = .ok (3, 12, 2)) :=
  ⟨claim5_codec_round_trip.1 8080 [65, 66] (by decide) (by decide)
      (by decide),
    claim5_codec_round_trip.2.1 5 [78] (by decide) (by decide) (by decide)
      (by decide),
    claim5_codec_round_trip.2.2.1 DECISION_STAND (Or.inr rfl),
    claim5_codec_round_trip.2.2.2 3 12 2 (by decide) (by decide) (by decide)
      (by decide)⟩

lemma unpack_offer_err (data : List Nat)
    (h : data.length ≠ 39 ∨ beVal (data.take 4) ≠ MAGIC_COOKIE ∨
      beVal ((data.drop 4).take 1) ≠ MSG_TYPE_OFFER) :
    isErr (unpack_offer data) = true := by
  simp only [unpack_offer]
  split
  · rfl
  · rename_i hlen
    split
    · rfl
    · rename_i hc
      split
      · rfl
      · rename_i hm
        rcases h with h | h | h
        · exact absurd h hlen
        · exact absurd h hc
        · exact absurd h hm

lemma unpack_request_err (data : List Nat)
    (h : data.length ≠ 38 ∨ beVal (data.take 4) ≠ MAGIC_COOKIE ∨
      beVal ((data.drop 4).take 1) ≠ MSG_TYPE_REQUEST) :
    isErr (unpack_request data) = true := by
  simp only [unpack_request]
  split
  · rfl
  · rename_i hlen
    split
    · rfl
    · rename_i hc
      split
      · rfl
      · rename_i hm
        split
        · rfl
        · rcases h with h | h | h
          · exact absurd h hlen
          · exact absurd h hc
          · exact absurd h hm

lemma unpack_payload_client_err (data : List Nat)
    (h : data.length ≠ 10 ∨ beVal (data.take 4) ≠ MAGIC_COOKIE ∨
      beVal ((data.drop 4).take 1) ≠ MSG_TYPE_PAYLOAD) :
    isErr (unpack_payload_client data) = true := by
  simp only [unpack_payload_client]
  split
  · rfl
  · rename_i hlen
    split
    · rfl
    · rename_i hc
      split
      · rfl
      · rename_i hm
        split
        · rcases h with h | h | h
          · exact absurd h hlen
          · exact absurd h hc
          · exact absurd h hm
        · rfl

lemma unpack_payload_server_err (data : List Nat)
    (h : data.length ≠ 9 ∨ beVal (data.take 4) ≠ MAGIC_COOKIE ∨
      beVal ((data.drop 4).take 1) ≠ MSG_TYPE_PAYLOAD) :
    isErr (unpack_payload_server data) = true := by
  simp only [unpack_payload_server]
  split
  · rfl
  · rename_i hlen
    split
    · rfl
    · rename_i hc
      split
      · rfl
      · rename_i hm
        rcases h with h | h | h
        · exact absurd h hlen
        · exact absurd h hc
        · exact absurd h hm

/-- Claim C6: each of the four decode functions fails for every byte
string whose length differs from the fixed size of its kind, whose
leading 4-byte big-endian magic is not 0xABCDDCBA, or whose
message-type byte differs from the expected tag (0x2 for offers, 0x3
for requests, 0x4 for payloads). -/
theorem claim6_codec_rejection :
    (∀ data : List Nat,
      data.length ≠ 39 ∨ beVal (data.take 4) ≠ MAGIC_COOKIE ∨
        beVal ((data.drop 4).take 1) ≠ MSG_TYPE_OFFER →
      isErr (unpack_offer data) = true) ∧
    (∀ data : List Nat,
      data.length ≠ 38 ∨ beVal (data.take 4) ≠ MAGIC_COOKIE ∨
        beVal ((data.drop 4).take 1) ≠ MSG_TYPE_REQUEST →
      isErr (unpack_request data) = true) ∧
    (∀ data : List Nat,
      data.length ≠ 10 ∨ beVal (data.take 4) ≠ MAGIC_COOKIE ∨
        beVal ((data.drop 4).take 1) ≠ MSG_TYPE_PAYLOAD →
      isErr (unpack_payload_client data) = true) ∧
    (∀ data : List Nat,
      data.length ≠ 9 ∨ beVal (data.take 4) ≠ MAGIC_COOKIE ∨
        beVal ((data.drop 4).take 1) ≠ MSG_TYPE_PAYLOAD →
      isErr (unpack_payload_server data) = true) :=
  ⟨unpack_offer_err, unpack_request_err, unpack_payload_client_err,
    unpack_payload_server_err⟩

/-- Closed instance of claim C6: a wrong-length string, a wrong-magic
string and a wrong-tag string are each rejected by every decoder. -/
theorem claim6_codec_rejection_witness :
    isErr (unpack_offer []) = true ∧
    isErr (unpack_request [0, 0, 0, 0, 3, 1, 0, 0, 0, 0, 0, 0, 0, 0, 0, 0,
      0, 0, 0, 0, 0, 0, 0, 0, 0, 0, 0, 0, 0, 0, 0, 0, 0, 0, 0, 0, 0, 0])
      = true ∧
    isErr (unpack_payload_client [171, 205, 220, 186, 9, 72, 105, 116, 116,
      116]) = true ∧
    isErr (unpack_payload_server [171, 205, 220, 186, 4, 0, 0, 1]) = true :=
  ⟨claim6_codec_rejection.1 [] (Or.inl (by decide)),
    claim6_codec_rejection.2.1 _ (Or.inr (Or.inl (by decide))),
    claim6_codec_rejection.2.2.1 _ (Or.inr (Or.inr (by decide))),
    claim6_codec_rejection.2.2.2 _ (Or.inl (by decide))⟩

/-- Claim C7: field ranges are validated at encode time — pack_request
rejects every round count outside 1..255, pack_payload_server rejects
every result outside 0..3, rank outside 1..13 and suit outside 0..3,
and pack_payload_client rejects every decision other than the two
5-byte literals; the rejected call returns an error rather than a
clamped encoding. -/
theorem claim7_encode_validation :
    (∀ n name, n = 0 ∨ 255 < n → isErr (pack_request n name) = true) ∧
    (∀ r rk s, 3 < r ∨ rk = 0 ∨ 13 < rk ∨ 3 < s →
      isErr (pack_payload_server r rk s) = true) ∧
    (∀ d, d ≠ DECISION_HIT → d ≠ DECISION_STAND →
      isErr (pack_payload_client d) = true) := by
  refine ⟨?_, ?_, ?_⟩
  · intro n name h
    simp only [pack_request]
    rw [if_neg (by omega)]
    rfl
  · intro r rk s h
    simp only [pack_payload_server]
    split
    · rfl
    · rename_i h1
      split
      · rfl
      · rename_i h2
        split
        · rfl
        · rename_i h3
          exfalso
          simp only [not_not] at h1 h2 h3
          rcases h with h | h | h | h <;> omega
  · intro d hd1 hd2
    simp only [pack_payload_client]
    rw [if_neg (by simp [hd1, hd2])]
    rfl

/-- Closed instance of claim C7 at concrete out-of-range inputs. -/
theorem claim7_encode_validation_witness :
    isErr (pack_request 256 [65]) = true ∧
    isErr (pack_payload_server 4 1 0) = true ∧
    isErr (pack_payload_client [72, 73, 74, 75, 76]) = true :=
  ⟨claim7_encode_validation.1 256 [65] (Or.inr (by decide)),
    claim7_encode_validation.2.1 4 1 0 (Or.inl (by decide)),
    claim7_encode_validation.2.2 [72, 73, 74, 75, 76] (by decide)
      (by decide)⟩

/-- Claim C8: on valid input every encoder produces exactly the fixed
length of its kind (offer 39, request 38, client decision 10, server
payload 9), the magic constant is laid out big-endian, numeric fields
read back big-endian to the original value, and the name field
occupies exactly 32 bytes, zero-padded when short and truncated when
long. -/
theorem claim8_encoder_layout :
    (∀ port name, port ≤ 65535 →
      ∃ out, pack_offer port name = .ok out ∧ out.length = 39 ∧
        out.take 4 = [171, 205, 220, 186] ∧
        beVal ((out.drop 5).take 2) = port ∧
        (out.drop 7).length = 32 ∧
        (name.length ≤ 32 →
          out.drop 7 = name ++ List.replicate (32 - name.length) 0) ∧
        (32 ≤ name.length → out.drop 7 = name.take 32)) ∧
    (∀ n name, 1 ≤ n → n ≤ 255 →
      ∃ out, pack_request n name = .ok out ∧ out.length = 38 ∧
        out.take 4 = [171, 205, 220, 186] ∧
        (out.drop 5).take 1 = [n] ∧ (out.drop 6).length = 32) ∧
    (∀ d, d = DECISION_HIT ∨ d = DECISION_STAND →
      ∃ out, pack_payload_client d = .ok out ∧ out.length = 10 ∧
        out.take 4 = [171, 205, 220, 186]) ∧
    (∀ r rk s, r ≤ 3 → 1 ≤ rk → rk ≤ 13 → s ≤ 3 →
      ∃ out, pack_payload_server r rk s = .ok out ∧ out.length = 9 ∧
        out.take 4 = [171, 205, 220, 186] ∧
        beVal ((out.drop 6).take 2) = rk ∧ (out.drop 8).take 1 = [s]) := by
  refine ⟨?_, ?_, ?_, ?_⟩
  · intro port name h
    refine ⟨_, pack_offer_eq port name h, ?_, rfl, ?_, ?_, ?_, ?_⟩
    · simp [encode_fixed_name_length]
    · simp only [List.drop_succ_cons, List.take_succ_cons, List.take_zero,
        List.drop_zero]
      simp [beVal]
      omega
    · simp [encode_fixed_name_length]
    · intro hle
      simp only [List.drop_succ_cons, List.drop_zero, encode_fixed_name]
      split
      · rename_i hge
        have : name.length = 32 := by omega
        rw [List.take_of_length_le (by omega)]
        simp [this]
      · rfl
    · intro hge
      simp only [List.drop_succ_cons, List.drop_zero, encode_fixed_name]
      split
      · rfl
      · rename_i hlt
        omega
  · intro n name h1 h2
    refine ⟨_, pack_request_eq n name h1 h2, ?_, rfl, rfl, ?_⟩
    · simp [encode_fixed_name_length]
    · simp [encode_fixed_name_length]
  · rintro d (rfl | rfl)
    · exact ⟨[171, 205, 220, 186, 4, 72, 105, 116, 116, 116], by rfl,
        by decide, by decide⟩
    · exact ⟨[171, 205, 220, 186, 4, 83, 116, 97, 110, 100], by rfl,
        by decide, by decide⟩
  · intro r rk s h1 h2 h3 h4
    refine ⟨_, pack_payload_server_eq r rk s h1 h2 h3 h4, by simp, rfl,
      ?_, rfl⟩
    simp only [List.drop_succ_cons, List.take_succ_cons, List.take_zero,
      List.drop_zero]
    simp [beVal]
    omega

/-- Closed instance of claim C8 at concrete inputs. -/
theorem claim8_encoder_layout_witness :
    (∃ out, pack_offer 13122 [78, 79] = .ok out ∧ out.length = 39 ∧
      out.take 4 = [171, 205, 220, 186] ∧
      beVal ((out.drop 5).take 2) = 13122 ∧
      (out.drop 7).length = 32 ∧
      ((List.length [78, 79] ≤ 32 →
        out.drop 7 = [78, 79] ++ List.replicate (32 - List.length [78, 79]) 0)) ∧
      (32 ≤ List.length [78, 79] → out.drop 7 = List.take 32 [78, 79])) ∧
    (∃ out, pack_request 7 [88] = .ok out ∧ out.length = 38 ∧
      out.take 4 = [171, 205, 220, 186] ∧
      (out.drop 5).take 1 = [7] ∧ (out.drop 6).length = 32) ∧
    (∃ out, pack_payload_client DECISION_HIT = .ok out ∧ out.length = 10 ∧
      out.take 4 = [171, 205, 220, 186]) ∧
    (∃ out, pack_payload_server 0 13 3 = .ok out ∧ out.length = 9 ∧
      out.take 4 = [171, 205, 220, 186] ∧
      beVal ((out.drop 6).take 2) = 13 ∧ (out.drop 8).take 1 = [3]) :=
  ⟨claim8_encoder_layout.1 13122 [78, 79] (by decide),
    claim8_encoder_layout.2.1 7 [88] (by decide) (by decide),
    claim8_encoder_layout.2.2.1 DECISION_HIT (Or.inl rfl),
    claim8_encoder_layout.2.2.2 0 13 3 (by decide) (by decide) (by decide)
      (by decide)⟩

/-! ## Hand-value lemmas -/

lemma reduceAces_eq_softReduce (a t : Nat) :
    reduceAces t a = softReduce t a := by
  induction a generalizing t with
  | zero => rfl
  | succ a ih =>
    by_cases h : 21 < t
    · simp [reduceAces, softReduce, h, Nat.not_le.mpr h, ih]
    · simp [reduceAces, softReduce, h, Nat.not_lt.mp h]

lemma count_one_eq_filter (ranks : List Nat) :
    (ranks.filter (fun r => r = 1)).length = ranks.count 1 := by
  induction ranks with
  | nil => rfl
  | cons r rs ih =>
    by_cases h : r = 1 <;>
      simp [List.filter_cons, List.count_cons, h, ih]

lemma reduceAces_of_gt (a t : Nat) (h : 21 < reduceAces t a) :
    reduceAces t a = t - 10 * a := by
  induction a generalizing t with
  | zero => simp [reduceAces]
  | succ a ih =>
    by_cases h21 : 21 < t
    · simp only [reduceAces, if_pos h21] at h ⊢
      rw [ih _ h]
      omega
    · simp only [reduceAces, if_neg h21] at h
      exact absurd h h21

lemma raw_eq_hard_add_aces (ranks : List Nat) :
    (ranks.map card_points).sum =
      hardTotal ranks + 10 * (ranks.filter (fun r => r = 1)).length := by
  induction ranks with
  | nil => rfl
  | cons r rs ih =>
    by_cases h : r = 1
    · subst h
      simp only [List.map_cons, List.sum_cons, hardTotal,
        List.filter_cons] at ih ⊢
      simp only [card_points, if_pos rfl] at ih ⊢
      simp at ih ⊢
      omega
    · simp only [List.map_cons, List.sum_cons, hardTotal,
        List.filter_cons] at ih ⊢
      simp only [h, if_false, decide_eq_true_eq, if_neg h] at ih ⊢
      simp [ih]
      omega

/-- Claim C2: `hand_value` computes the spec soft-ace reference
algorithm; in particular `hand_value [1,1,9] = 21` and
`hand_value [10,10,5] = 25`; and whenever the result exceeds 21 it
equals the hard total with every Ace demoted to 1, which itself still
exceeds 21. -/
theorem claim2_hand_value_soft_ace :
    (∀ ranks, hand_value ranks = softAceValue ranks) ∧
    hand_value [1, 1, 9] = 21 ∧
    hand_value [10, 10, 5] = 25 ∧
    (∀ ranks, 21 < hand_value ranks →
      hand_value ranks = hardTotal ranks ∧ 21 < hardTotal ranks) := by
  refine ⟨?_, by decide, by decide, ?_⟩
  · intro ranks
    unfold hand_value softAceValue
    rw [count_one_eq_filter, reduceAces_eq_softReduce]
    rfl
  · intro ranks h
    unfold hand_value at h ⊢
    have hred := reduceAces_of_gt _ _ h
    have hraw := raw_eq_hard_add_aces ranks
    constructor
    · rw [hred]
      omega
    · rw [hred] at h
      omega

/-- Closed instance of claim C2 at concrete hands. -/
theorem claim2_hand_value_soft_ace_witness :
    hand_value [1, 13, 13] = softAceValue [1, 13, 13] ∧
    21 < hand_value [10, 10, 5] ∧
    hand_value [10, 10, 5] = hardTotal [10, 10, 5] ∧
    21 < hardTotal [10, 10, 5] :=
  ⟨claim2_hand_value_soft_ace.1 [1, 13, 13], by decide,
    (claim2_hand_value_soft_ace.2.2.2 [10, 10, 5] (by decide)).1,
    (claim2_hand_value_soft_ace.2.2.2 [10, 10, 5] (by decide)).2⟩

/-! ## Deck and hand lemmas -/

lemma draw_some {deck : List Card} {c : Card} {deck2 : List Card}
    (h : draw_from_deck deck = some (c, deck2)) :
    c ∈ deck ∧ deck2.length + 1 = deck.length ∧ ∀ x ∈ deck2, x ∈ deck := by
  unfold draw_from_deck at h
  cases hd : deck.getLast? with
  | none => rw [hd] at h; cases h
  | some x =>
    rw [hd] at h
    injection h with h1
    obtain ⟨rfl, rfl⟩ : x = c ∧ deck.dropLast = deck2 := by
      constructor
      · exact congrArg Prod.fst h1
      · exact congrArg Prod.snd h1
    have hne : deck ≠ [] := by
      intro hnil
      rw [hnil] at hd
      cases hd
    refine ⟨List.mem_of_mem_getLast? hd, ?_, ?_⟩
    · have := List.length_dropLast deck
      have := List.length_pos.mpr hne
      omega
    · exact fun x hx => (List.dropLast_sublist deck).subset hx

lemma reduceAces_lb (a t : Nat) : t ≤ reduceAces t a + 10 * a := by
  induction a generalizing t with
  | zero => simp [reduceAces]
  | succ a ih =>
    by_cases h : 21 < t
    · simp only [reduceAces, if_pos h]
      have := ih (t - 10)
      omega
    · simp only [reduceAces, if_neg h]
      omega

lemma sum_points_lb (ranks : List Nat) (h : ∀ r ∈ ranks, 1 ≤ r) :
    2 * ranks.length + 9 * (ranks.filter (fun r => r = 1)).length ≤
      (ranks.map card_points).sum := by
  induction ranks with
  | nil => simp
  | cons r rs ih =>
    have hr : 1 ≤ r := h r (List.mem_cons_self r rs)
    have ihh := ih (fun x hx => h x (List.mem_cons_of_mem r hx))
    by_cases h1 : r = 1
    · subst h1
      simp only [List.map_cons, List.sum_cons, List.filter_cons,
        List.length_cons, card_points, if_pos rfl] at ihh ⊢
      simp at ihh ⊢
      omega
    · have hp : 2 ≤ card_points r := by
        unfold card_points
        split
        · omega
        · split <;> omega
      simp only [List.map_cons, List.sum_cons, List.filter_cons,
        List.length_cons] at ihh ⊢
      rw [if_neg (by simp [h1])]
      omega

lemma length_le_hand_value (ranks : List Nat) (h : ∀ r ∈ ranks, 1 ≤ r) :
    ranks.length ≤ hand_value ranks := by
  unfold hand_value
  have h1 := reduceAces_lb ((ranks.filter (fun r => r = 1)).length)
    ((ranks.map card_points).sum)
  have h2 := sum_points_lb ranks h
  have h3 : (ranks.filter (fun r => r = 1)).length ≤ ranks.length :=
    List.length_filter_le _ _
  omega

lemma ranksOf_pos {cards : List Card} (h : ∀ x ∈ cards, 1 ≤ x.rank) :
    ∀ r ∈ ranksOf cards, 1 ≤ r := by
  intro r hr
  obtain ⟨x, hx, rfl⟩ := List.mem_map.mp hr
  exact h x hx

lemma length_le_hand_value_cards (cards : List Card)
    (h : ∀ x ∈ cards, 1 ≤ x.rank) :
    cards.length ≤ hand_value (ranksOf cards) := by
  have := length_le_hand_value (ranksOf cards) (ranksOf_pos h)
  simpa [ranksOf] using this

/-! ## Player-turn lemmas -/

lemma playerTurn_bust (ds : List Decision) (deck cards : List Card)
    (h : 21 < hand_value (ranksOf cards)) :
    playerTurn ds deck cards = .ok ⟨deck, cards, ds, [], true⟩ := by
  cases ds with
  | nil =>
    unfold playerTurn
    rw [if_pos h]
  | cons d rest =>
    cases d with
    | stand =>
      unfold playerTurn
      rw [if_pos h]
    | hit =>
      unfold playerTurn
      rw [if_pos h]

lemma playerTurn_ok_spec : ∀ (ds : List Decision) (deck cards : List Card)
    (r : PTRes), playerTurn ds deck cards = .ok r →
    (r.busted = true → 21 < hand_value (ranksOf r.cards)) ∧
    (r.busted = false → hand_value (ranksOf r.cards) ≤ 21) ∧
    r.deck.length + r.cards.length = deck.length + cards.length ∧
    (∀ m ∈ r.sent, m.1 = RES_NOT_OVER) ∧
    (∀ x ∈ r.cards, x ∈ cards ∨ x ∈ deck) ∧
    (∀ x ∈ r.deck, x ∈ deck) := by
  intro ds
  induction ds with
  | nil =>
    intro deck cards r h
    unfold playerTurn at h
    split at h
    · rename_i hb
      injection h with h1
      subst h1
      refine ⟨fun _ => hb, ?_, rfl, ?_, ?_, ?_⟩
      · intro hf
        exact absurd hf (by simp)
      · intro m hm
        exact absurd hm (by simp)
      · intro x hx
        exact Or.inl hx
      · intro x hx
        exact hx
    · exact absurd h (by simp)
  | cons d rest ih =>
    intro deck cards r h
    cases d with
    | stand =>
      unfold playerTurn at h
      split at h
      · rename_i hb
        injection h with h1
        subst h1
        refine ⟨fun _ => hb, ?_, rfl, ?_, ?_, ?_⟩
        · intro hf
          exact absurd hf (by simp)
        · intro m hm
          exact absurd hm (by simp)
        · intro x hx
          exact Or.inl hx
        · intro x hx
          exact hx
      · rename_i hb
        injection h with h1
        subst h1
        refine ⟨?_, ?_, rfl, ?_, ?_, ?_⟩
        · intro ht
          exact absurd ht (by simp)
        · intro _
          show hand_value (ranksOf cards) ≤ 21
          omega
        · intro m hm
          exact absurd hm (by simp)
        · intro x hx
          exact Or.inl hx
        · intro x hx
          exact hx
    | hit =>
      unfold playerTurn at h
      split at h
      · rename_i hb
        injection h with h1
        subst h1
        refine ⟨fun _ => hb, ?_, rfl, ?_, ?_, ?_⟩
        · intro hf
          exact absurd hf (by simp)
        · intro m hm
          exact absurd hm (by simp)
        · intro x hx
          exact Or.inl hx
        · intro x hx
          exact hx
      · rename_i hb
        cases hdraw : draw_from_deck deck with
        | none =>
          simp only [hdraw] at h
          exact absurd h (by simp)
        | some p =>
          obtain ⟨c, deck2⟩ := p
          simp only [hdraw] at h
          obtain ⟨hcmem, hlen, hsub⟩ := draw_some hdraw
          cases hrec : playerTurn rest deck2 (cards ++ [c]) with
          | error e =>
            simp only [hrec] at h
            exact absurd h (by simp)
          | ok r2 =>
            simp only [hrec] at h
            injection h with h1
            subst h1
            obtain ⟨ib, inb, ilen, isent, icards, ideck⟩ :=
              ih deck2 (cards ++ [c]) r2 hrec
            refine ⟨ib, inb, ?_, ?_, ?_, ?_⟩
            · show r2.deck.length + r2.cards.length =
                deck.length + cards.length
              simp only [List.length_append, List.length_cons, List.length_nil] at ilen
              omega
            · intro m hm
              simp only [List.mem_cons] at hm
              rcases hm with rfl | hm
              · rfl
              · exact isent m hm
            · intro x hx
              rcases icards x hx with hx2 | hx2
              · rcases List.mem_append.mp hx2 with hx3 | hx3
                · exact Or.inl hx3
                · simp only [List.mem_singleton] at hx3
                  subst hx3
                  exact Or.inr hcmem
              · exact Or.inr (hsub x hx2)
            · exact fun x hx => hsub x (ideck x hx)

lemma playerTurn_noDeckEx : ∀ (ds : List Decision) (deck cards : List Card),
    (∀ x ∈ deck, 1 ≤ x.rank) → (∀ x ∈ cards, 1 ≤ x.rank) →
    22 ≤ deck.length + cards.length →
    playerTurn ds deck cards ≠ .error .deckExhausted := by
  intro ds
  induction ds with
  | nil =>
    intro deck cards _ _ _
    unfold playerTurn
    split
    · simp
    · simp
  | cons d rest ih =>
    intro deck cards hdk hcd hsum
    cases d with
    | stand =>
      unfold playerTurn
      split
      · simp
      · simp
    | hit =>
      unfold playerTurn
      split
      · simp
      · rename_i hb
        have hcl : cards.length ≤ 21 := by
          have := length_le_hand_value_cards cards hcd
          omega
        cases hdraw : draw_from_deck deck with
        | none =>
          exfalso
          have hdeck : deck = [] := by
            unfold draw_from_deck at hdraw
            cases hgl : deck.getLast? with
            | none => exact List.getLast?_eq_none_iff.mp hgl
            | some x => rw [hgl] at hdraw; cases hdraw
          subst hdeck
          simp at hsum
          omega
        | some p =>
          obtain ⟨c, deck2⟩ := p
          simp only [hdraw]
          obtain ⟨hcmem, hlen, hsub⟩ := draw_some hdraw
          have ihh := ih deck2 (cards ++ [c])
            (fun x hx => hdk x (hsub x hx))
            (fun x hx => by
              rcases List.mem_append.mp hx with hx2 | hx2
              · exact hcd x hx2
              · simp only [List.mem_singleton] at hx2
                rw [hx2]
                exact hdk c hcmem)
            (by simp only [List.length_append, List.length_cons, List.length_nil]; omega)
          cases hrec : playerTurn rest deck2 (cards ++ [c]) with
          | error e =>
            simp only [hrec]
            cases e with
            | deckExhausted => exact absurd hrec ihh
            | noDecision => simp
          | ok r2 =>
            simp only [hrec]
            simp

/-! ## Dealer-turn lemmas -/

lemma dealerTurn_stand (deck cards : List Card)
    (h : 17 ≤ hand_value (ranksOf cards)) :
    dealerTurn deck cards = .ok (deck, cards, []) := by
  rw [dealerTurn]
  rw [if_pos h]

lemma dealerTurn_none (deck cards : List Card)
    (h17 : ¬ 17 ≤ hand_value (ranksOf cards))
    (hdraw : draw_from_deck deck = none) :
    dealerTurn deck cards = .error .deckExhausted := by
  rw [dealerTurn, if_neg h17]
  split
  · rfl
  · rename_i c deck2 heq
    rw [hdraw] at heq
    cases heq

lemma dealerTurn_draw (deck cards : List Card) (c : Card)
    (deck2 : List Card)
    (h17 : ¬ 17 ≤ hand_value (ranksOf cards))
    (hdraw : draw_from_deck deck = some (c, deck2)) :
    dealerTurn deck cards =
      (match dealerTurn deck2 (cards ++ [c]) with
        | .error e => .error e
        | .ok (dk, cs, ms) => .ok (dk, cs, cardMsg c :: ms)) := by
  rw [dealerTurn, if_neg h17]
  split
  · rename_i heq
    rw [hdraw] at heq
    cases heq
  · rename_i c2 deck22 heq
    rw [hdraw] at heq
    injection heq with h1
    obtain ⟨rfl, rfl⟩ : c = c2 ∧ deck2 = deck22 := by
      exact ⟨congrArg Prod.fst h1, congrArg Prod.snd h1⟩
    rfl

lemma dealerTurn_ok_spec (deck cards : List Card) :
    ∀ dk cs ms, dealerTurn deck cards = .ok (dk, cs, ms) →
    17 ≤ hand_value (ranksOf cs) ∧
    dk.length + cs.length = deck.length + cards.length ∧
    (∀ m ∈ ms, m.1 = RES_NOT_OVER) ∧
    (∀ x ∈ cs, x ∈ cards ∨ x ∈ deck) ∧
    (∀ x ∈ dk, x ∈ deck) := by
  induction deck, cards using dealerTurn.induct with
  | case1 deck cards h17 =>
    intro dk cs ms h
    rw [dealerTurn_stand deck cards h17] at h
    injection h with h1
    simp only [Prod.mk.injEq] at h1
    obtain ⟨rfl, rfl, rfl⟩ := h1
    refine ⟨h17, rfl, ?_, ?_, ?_⟩
    · intro m hm
      exact absurd hm (by simp)
    · intro x hx
      exact Or.inl hx
    · intro x hx
      exact hx
  | case2 deck cards h17 hdraw =>
    intro dk cs ms h
    rw [dealerTurn_none deck cards h17 hdraw] at h
    exact absurd h (by simp)
  | case3 deck cards h17 c deck2 hdraw e herr ih =>
    intro dk cs ms h
    rw [dealerTurn_draw deck cards c deck2 h17 hdraw] at h
    simp only [herr] at h
    exact absurd h (by simp)
  | case4 deck cards h17 c deck2 hdraw dk0 cs0 ms0 hrec ih =>
    intro dk cs ms h
    rw [dealerTurn_draw deck cards c deck2 h17 hdraw] at h
    simp only [hrec] at h
    injection h with h1
    simp only [Prod.mk.injEq] at h1
    obtain ⟨rfl, rfl, rfl⟩ := h1
    obtain ⟨i17, ilen, imsg, icards, idk⟩ := ih dk0 cs0 ms0 hrec
    obtain ⟨hcmem, hlen, hsub⟩ := draw_some hdraw
    refine ⟨i17, ?_, ?_, ?_, ?_⟩
    · simp only [List.length_append, List.length_cons, List.length_nil] at ilen
      omega
    · intro m hm
      simp only [List.mem_cons] at hm
      rcases hm with rfl | hm
      · rfl
      · exact imsg m hm
    · intro x hx
      rcases icards x hx with hx2 | hx2
      · rcases List.mem_append.mp hx2 with hx3 | hx3
        · exact Or.inl hx3
        · simp only [List.mem_singleton] at hx3
          subst hx3
          exact Or.inr hcmem
      · exact Or.inr (hsub x hx2)
    · exact fun x hx => hsub x (idk x hx)

lemma dealerTurn_noDeckEx (deck cards : List Card) :
    (∀ x ∈ deck, 1 ≤ x.rank) → (∀ x ∈ cards, 1 ≤ x.rank) →
    17 ≤ deck.length + cards.length →
    dealerTurn deck cards ≠ .error .deckExhausted := by
  induction deck, cards using dealerTurn.induct with
  | case1 deck cards h17 =>
    intro _ _ _
    rw [dealerTurn_stand deck cards h17]
    simp
  | case2 deck cards h17 hdraw =>
    intro hdk hcd hsum
    exfalso
    have hdeck : deck = [] := by
      unfold draw_from_deck at hdraw
      cases hgl : deck.getLast? with
      | none => exact List.getLast?_eq_none_iff.mp hgl
      | some x => rw [hgl] at hdraw; cases hdraw
    subst hdeck
    have hcl := length_le_hand_value_cards cards hcd
    simp at hsum
    omega
  | case3 deck cards h17 c deck2 hdraw e herr ih =>
    intro hdk hcd hsum
    rw [dealerTurn_draw deck cards c deck2 h17 hdraw]
    simp only [herr]
    obtain ⟨hcmem, hlen, hsub⟩ := draw_some hdraw
    cases e with
    | noDecision => simp
    | deckExhausted =>
      exfalso
      have hcl : cards.length < 17 := by
        have h1 := length_le_hand_value_cards cards hcd
        omega
      refine absurd herr (ih ?_ ?_ ?_)
      · exact fun x hx => hdk x (hsub x hx)
      · intro x hx
        rcases List.mem_append.mp hx with hx2 | hx2
        · exact hcd x hx2
        · simp only [List.mem_singleton] at hx2
          rw [hx2]
          exact hdk c hcmem
      · simp only [List.length_append, List.length_cons, List.length_nil]
        omega
  | case4 deck cards h17 c deck2 hdraw dk0 cs0 ms0 hrec ih =>
    intro _ _ _
    rw [dealerTurn_draw deck cards c deck2 h17 hdraw]
    simp only [hrec]
    simp

/-! ## Round lemmas -/

lemma draw_none {deck : List Card} (h : draw_from_deck deck = none) :
    deck = [] := by
  unfold draw_from_deck at h
  cases hgl : deck.getLast? with
  | none => exact List.getLast?_eq_none_iff.mp hgl
  | some x => rw [hgl] at h; cases h

lemma play_one_round_ok_spec (deck0 : List Card) (ds : List Decision)
    (out : RoundOut) (h : play_one_round deck0 ds = .ok out) :
    ∃ p1 deck1 p2 deck2 up deck3 hidden deck4 pr,
      draw_from_deck deck0 = some (p1, deck1) ∧
      draw_from_deck deck1 = some (p2, deck2) ∧
      draw_from_deck deck2 = some (up, deck3) ∧
      draw_from_deck deck3 = some (hidden, deck4) ∧
      playerTurn ds deck4 [p1, p2] = .ok pr ∧
      out.player = pr.cards ∧
      (∃ pre, out.trace = pre ++ [(out.result, 1, 0)] ∧
        (∀ m ∈ pre, m.1 = RES_NOT_OVER)) ∧
      ((pr.busted = true ∧ out.result = RES_LOSS ∧
        out.dealer = [up, hidden]) ∨
       (pr.busted = false ∧ ∃ dk dms,
         dealerTurn pr.deck [up, hidden] = .ok (dk, out.dealer, dms) ∧
         out.result = resolveOutcome (hand_value (ranksOf pr.cards))
           (hand_value (ranksOf out.dealer)))) := by
  unfold play_one_round at h
  cases hd1 : draw_from_deck deck0 with
  | none =>
    simp only [hd1] at h
    exact absurd h (by simp)
  | some q1 =>
  obtain ⟨p1, deck1⟩ := q1
  simp only [hd1] at h
  cases hd2 : draw_from_deck deck1 with
  | none =>
    simp only [hd2] at h
    exact absurd h (by simp)
  | some q2 =>
  obtain ⟨p2, deck2⟩ := q2
  simp only [hd2] at h
  cases hd3 : draw_from_deck deck2 with
  | none =>
    simp only [hd3] at h
    exact absurd h (by simp)
  | some q3 =>
  obtain ⟨up, deck3⟩ := q3
  simp only [hd3] at h
  cases hd4 : draw_from_deck deck3 with
  | none =>
    simp only [hd4] at h
    exact absurd h (by simp)
  | some q4 =>
  obtain ⟨hidden, deck4⟩ := q4
  simp only [hd4] at h
  cases hpt : playerTurn ds deck4 [p1, p2] with
  | error e =>
    simp only [hpt] at h
    exact absurd h (by simp)
  | ok pr =>
  simp only [hpt] at h
  obtain ⟨_, _, _, hsent, _, _⟩ := playerTurn_ok_spec ds deck4 [p1, p2] pr hpt
  split at h
  · rename_i hbust
    injection h with h1
    subst h1
    refine ⟨p1, deck1, p2, deck2, up, deck3, hidden, deck4, pr, rfl, hd2,
      hd3, hd4, hpt, rfl, ?_, Or.inl ⟨hbust, rfl, rfl⟩⟩
    refine ⟨[cardMsg p1, cardMsg p2, cardMsg up] ++ pr.sent, ?_, ?_⟩
    · simp [List.append_assoc]
    · intro m hm
      rcases List.mem_append.mp hm with hm | hm
      · simp only [List.mem_cons, List.not_mem_nil, or_false] at hm
        rcases hm with rfl | rfl | rfl <;> rfl
      · exact hsent m hm
  · rename_i hbust
    have hbustf : pr.busted = false := by
      cases hb : pr.busted
      · rfl
      · exact absurd hb hbust
    cases hdt : dealerTurn pr.deck [up, hidden] with
    | error e =>
      simp only [hdt] at h
      exact absurd h (by simp)
    | ok trip =>
    obtain ⟨dk, dcs, dms⟩ := trip
    simp only [hdt] at h
    obtain ⟨_, _, hdms, _, _⟩ := dealerTurn_ok_spec pr.deck [up, hidden]
      dk dcs dms hdt
    injection h with h1
    subst h1
    refine ⟨p1, deck1, p2, deck2, up, deck3, hidden, deck4, pr, rfl, hd2,
      hd3, hd4, hpt, rfl, ?_, Or.inr ⟨hbustf, dk, dms, hdt, rfl⟩⟩
    refine ⟨[cardMsg p1, cardMsg p2, cardMsg up] ++ pr.sent ++
      [cardMsg hidden] ++ dms, ?_, ?_⟩
    · simp [List.append_assoc]
    · intro m hm
      rcases List.mem_append.mp hm with hm | hm
      · rcases List.mem_append.mp hm with hm | hm
        · rcases List.mem_append.mp hm with hm | hm
          · simp only [List.mem_cons, List.not_mem_nil, or_false] at hm
            rcases hm with rfl | rfl | rfl <;> rfl
          · exact hsent m hm
        · simp only [List.mem_singleton] at hm
          subst hm
          rfl
      · exact hdms m hm

/-- Claim C1: round resolution is the pure comparison of the two final
hand values — dealer total over 21 gives WIN, otherwise a greater
player total gives WIN, a smaller one LOSS and equality TIE — and when
the player did not bust, `play_one_round` returns exactly this
resolution of the final totals and sends it as the last message. -/
theorem claim1_outcome_resolution :
    (∀ p d, (21 < d → resolveOutcome p d = RES_WIN) ∧
      (d ≤ 21 → d < p → resolveOutcome p d = RES_WIN) ∧
      (d ≤ 21 → p < d → resolveOutcome p d = RES_LOSS) ∧
      (d ≤ 21 → p = d → resolveOutcome p d = RES_TIE)) ∧
    (∀ deck ds out, play_one_round deck ds = .ok out →
      hand_value (ranksOf out.player) ≤ 21 →
      out.result = resolveOutcome (hand_value (ranksOf out.player))
        (hand_value (ranksOf out.dealer)) ∧
      out.trace.getLast? = some (out.result, 1, 0)) := by
  constructor
  · intro p d
    refine ⟨?_, ?_, ?_, ?_⟩
    · intro h
      unfold resolveOutcome
      rw [if_pos h]
    · intro h1 h2
      unfold resolveOutcome
      rw [if_neg (by omega), if_pos h2]
    · intro h1 h2
      unfold resolveOutcome
      rw [if_neg (by omega), if_neg (by omega), if_pos h2]
    · intro h1 h2
      unfold resolveOutcome
      rw [if_neg (by omega), if_neg (by omega), if_neg (by omega)]
  · intro deck ds out h hple
    obtain ⟨p1, d1, p2, d2, up, d3, hid, d4, pr, _, _, _, _, hpt, hplayer,
      ⟨pre, htr, _⟩, hcase⟩ := play_one_round_ok_spec deck ds out h
    obtain ⟨hb, hnb, _, _, _, _⟩ := playerTurn_ok_spec ds d4 [p1, p2] pr hpt
    have hlast : out.trace.getLast? = some (out.result, 1, 0) := by
      rw [htr]
      exact List.getLast?_concat _
    rcases hcase with ⟨hbust, hres, hdeal⟩ | ⟨hbustf, dk, dms, hdt, hres⟩
    · exfalso
      have hgt := hb hbust
      rw [hplayer] at hple
      omega
    · rw [hplayer]
      exact ⟨hres, hlast⟩

/-- Closed instance of claim C1: the comparison table at concrete
totals, and a full round on a concrete deck where the player stands on
20 against a dealer 17 and the resolved WIN is the last message. -/
theorem claim1_outcome_resolution_witness :
    resolveOutcome 20 22 = RES_WIN ∧ resolveOutcome 20 19 = RES_WIN ∧
    resolveOutcome 18 19 = RES_LOSS ∧ resolveOutcome 18 18 = RES_TIE ∧
    ∃ out, play_one_round [⟨7, 0⟩, ⟨10, 1⟩, ⟨9, 2⟩, ⟨10, 0⟩]
        [Decision.stand] = .ok out ∧
      out.result = resolveOutcome (hand_value (ranksOf out.player))
        (hand_value (ranksOf out.dealer)) ∧
      out.trace.getLast? = some (out.result, 1, 0) := by
  refine ⟨(claim1_outcome_resolution.1 20 22).1 (by decide),
    (claim1_outcome_resolution.1 20 19).2.1 (by decide) (by decide),
    (claim1_outcome_resolution.1 18 19).2.2.1 (by decide) (by decide),
    (claim1_outcome_resolution.1 18 18).2.2.2 (by decide) (by decide), ?_⟩
  have hdt : dealerTurn [] [⟨10, 1⟩, ⟨7, 0⟩] =
      .ok ([], [⟨10, 1⟩, ⟨7, 0⟩], []) :=
    dealerTurn_stand _ _ (by decide)
  have hp : play_one_round [⟨7, 0⟩, ⟨10, 1⟩, ⟨9, 2⟩, ⟨10, 0⟩]
      [Decision.stand] =
      .ok ⟨3, [⟨10, 0⟩, ⟨9, 2⟩], [⟨10, 1⟩, ⟨7, 0⟩], [],
        [(0, 10, 0), (0, 9, 2), (0, 10, 1), (0, 7, 0), (3, 1, 0)]⟩ := by
    unfold play_one_round
    simp only [show draw_from_deck [⟨7, 0⟩, ⟨10, 1⟩, ⟨9, 2⟩, ⟨10, 0⟩] =
      some (⟨10, 0⟩, [⟨7, 0⟩, ⟨10, 1⟩, ⟨9, 2⟩]) from rfl]
    simp only [show draw_from_deck [⟨7, 0⟩, ⟨10, 1⟩, ⟨9, 2⟩] =
      some (⟨9, 2⟩, [⟨7, 0⟩, ⟨10, 1⟩]) from rfl]
    simp only [show draw_from_deck [⟨7, 0⟩, ⟨10, 1⟩] =
      some (⟨10, 1⟩, [⟨7, 0⟩]) from rfl]
    simp only [show draw_from_deck [⟨7, 0⟩] = some (⟨7, 0⟩, []) from rfl]
    simp only [show playerTurn [Decision.stand] [] [⟨10, 0⟩, ⟨9, 2⟩] =
      .ok ⟨[], [⟨10, 0⟩, ⟨9, 2⟩], [], [], false⟩ from rfl]
    simp only [hdt]
    rfl
  refine ⟨_, hp, ?_, ?_⟩
  · exact (claim1_outcome_resolution.2 _ _ _ hp (by decide)).1
  · exact (claim1_outcome_resolution.2 _ _ _ hp (by decide)).2

/-- Claim C3: the dealer loop only draws while its hand value is
strictly below 17 (a hand of value at least 17 stands immediately
without drawing, and a dealer hand that grew must have started below
17), and whenever the loop exits normally the final dealer hand value
is at least 17. -/
theorem claim3_dealer_stand_invariant :
    (∀ deck cards dk cs ms, dealerTurn deck cards = .ok (dk, cs, ms) →
      17 ≤ hand_value (ranksOf cs)) ∧
    (∀ deck cards, 17 ≤ hand_value (ranksOf cards) →
      dealerTurn deck cards = .ok (deck, cards, [])) ∧
    (∀ deck cards dk cs ms, dealerTurn deck cards = .ok (dk, cs, ms) →
      cs ≠ cards → hand_value (ranksOf cards) < 17) := by
  refine ⟨?_, ?_, ?_⟩
  · intro deck cards dk cs ms h
    exact (dealerTurn_ok_spec deck cards dk cs ms h).1
  · exact dealerTurn_stand
  · intro deck cards dk cs ms h hne
    by_cases h17 : 17 ≤ hand_value (ranksOf cards)
    · exfalso
      rw [dealerTurn_stand deck cards h17] at h
      injection h with h1
      simp only [Prod.mk.injEq] at h1
      exact hne h1.2.1.symm
    · omega

/-- Closed instance of claim C3: a dealer hand worth 19 stands at once
with the deck untouched, and its final value is at least 17. -/
theorem claim3_dealer_stand_invariant_witness :
    dealerTurn [⟨2, 0⟩] [⟨10, 0⟩, ⟨9, 1⟩] =
      .ok ([⟨2, 0⟩], [⟨10, 0⟩, ⟨9, 1⟩], []) ∧
    17 ≤ hand_value (ranksOf [⟨10, 0⟩, ⟨9, 1⟩]) := by
  have h := claim3_dealer_stand_invariant.2.1 [⟨2, 0⟩] [⟨10, 0⟩, ⟨9, 1⟩]
    (by decide)
  exact ⟨h, claim3_dealer_stand_invariant.1 _ _ _ _ _ h⟩

/-- Claim C4: a player hand over 21 at the top of the player loop ends
the round at once — the loop returns busted without consuming any
queued decision, nothing further is sent by the loop, and
`play_one_round` then returns LOSS with the dealer hand still at its
two initial cards, the trace ending in the LOSS message with only
card messages before it. -/
theorem claim4_bust_immediate_loss :
    (∀ ds deck cards, 21 < hand_value (ranksOf cards) →
      playerTurn ds deck cards = .ok ⟨deck, cards, ds, [], true⟩) ∧
    (∀ deck ds out, play_one_round deck ds = .ok out →
      21 < hand_value (ranksOf out.player) →
      out.result = RES_LOSS ∧ out.dealer.length = 2 ∧
      ∃ pre, out.trace = pre ++ [(RES_LOSS, 1, 0)] ∧
        ∀ m ∈ pre, m.1 = RES_NOT_OVER) := by
  refine ⟨playerTurn_bust, ?_⟩
  intro deck ds out h hgt
  obtain ⟨p1, d1, p2, d2, up, d3, hid, d4, pr, _, _, _, _, hpt, hplayer,
    ⟨pre, htr, hpre⟩, hcase⟩ := play_one_round_ok_spec deck ds out h
  obtain ⟨hb, hnb, _, _, _, _⟩ := playerTurn_ok_spec ds d4 [p1, p2] pr hpt
  rcases hcase with ⟨hbust, hres, hdeal⟩ | ⟨hbustf, dk, dms, hdt, hres⟩
  · refine ⟨hres, ?_, pre, ?_, hpre⟩
    · rw [hdeal]
      rfl
    · rw [htr, hres]
  · exfalso
    have hle := hnb hbustf
    rw [hplayer] at hgt
    omega

/-- Closed instance of claim C4: a hand of 24 busts at once with the
decision queue untouched, and a concrete round where the player on 19
hits a 5 ends in an immediate LOSS with the dealer hand unextended. -/
theorem claim4_bust_immediate_loss_witness :
    21 < hand_value (ranksOf [⟨10, 0⟩, ⟨9, 2⟩, ⟨5, 0⟩]) ∧
    playerTurn [] [] [⟨10, 0⟩, ⟨9, 2⟩, ⟨5, 0⟩] =
      .ok ⟨[], [⟨10, 0⟩, ⟨9, 2⟩, ⟨5, 0⟩], [], [], true⟩ ∧
    (∃ out, play_one_round [⟨5, 0⟩, ⟨7, 1⟩, ⟨10, 1⟩, ⟨9, 2⟩, ⟨10, 0⟩]
        [Decision.hit] = .ok out ∧
      out.result = RES_LOSS ∧ out.dealer.length = 2 ∧
      ∃ pre, out.trace = pre ++ [(RES_LOSS, 1, 0)] ∧
        ∀ m ∈ pre, m.1 = RES_NOT_OVER) := by
  refine ⟨by decide, claim4_bust_immediate_loss.1 [] [] _ (by decide), ?_⟩
  have hp : play_one_round [⟨5, 0⟩, ⟨7, 1⟩, ⟨10, 1⟩, ⟨9, 2⟩, ⟨10, 0⟩]
      [Decision.hit] =
      .ok ⟨RES_LOSS, [⟨10, 0⟩, ⟨9, 2⟩, ⟨5, 0⟩], [⟨10, 1⟩, ⟨7, 1⟩], [],
        [(0, 10, 0), (0, 9, 2), (0, 10, 1), (0, 5, 0), (2, 1, 0)]⟩ := by
    rfl
  exact ⟨_, hp, claim4_bust_immediate_loss.2 _ _ _ hp (by decide)⟩

/-- Claim C9: a round started from any permutation of the fresh
52-card deck never hits the empty-deck failure, whatever the decision
stream — the player loop stops on a bust and the dealer loop stops at
17, so the deck cannot run dry — and the two final hands together
never hold more than the 52 cards of the deck. -/
theorem claim9_deck_sufficiency (deck : List Card) (ds : List Decision)
    (hperm : deck.Perm fresh_deck) :
    play_one_round deck ds ≠ .error .deckExhausted ∧
    (∀ out, play_one_round deck ds = .ok out →
      out.player.length + out.dealer.length ≤ 52) := by
  have hlen : deck.length = 52 := by
    rw [hperm.length_eq]
    rfl
  have hranks : ∀ x ∈ deck, 1 ≤ x.rank := by
    intro x hx
    have hfresh : ∀ y ∈ fresh_deck, 1 ≤ y.rank := by decide
    exact hfresh x (hperm.mem_iff.mp hx)
  constructor
  · intro h
    unfold play_one_round at h
    cases hd1 : draw_from_deck deck with
    | none =>
      rw [draw_none hd1] at hlen
      simp at hlen
    | some q1 =>
    obtain ⟨p1, deck1⟩ := q1
    simp only [hd1] at h
    obtain ⟨hm1, hl1, hs1⟩ := draw_some hd1
    cases hd2 : draw_from_deck deck1 with
    | none =>
      rw [draw_none hd2] at hl1
      simp at hl1
      omega
    | some q2 =>
    obtain ⟨p2, deck2⟩ := q2
    simp only [hd2] at h
    obtain ⟨hm2, hl2, hs2⟩ := draw_some hd2
    cases hd3 : draw_from_deck deck2 with
    | none =>
      rw [draw_none hd3] at hl2
      simp at hl2
      omega
    | some q3 =>
    obtain ⟨up, deck3⟩ := q3
    simp only [hd3] at h
    obtain ⟨hm3, hl3, hs3⟩ := draw_some hd3
    cases hd4 : draw_from_deck deck3 with
    | none =>
      rw [draw_none hd4] at hl3
      simp at hl3
      omega
    | some q4 =>
    obtain ⟨hid, deck4⟩ := q4
    simp only [hd4] at h
    obtain ⟨hm4, hl4, hs4⟩ := draw_some hd4
    have hranks1 : ∀ x ∈ deck1, 1 ≤ x.rank := fun x hx => hranks x (hs1 x hx)
    have hranks2 : ∀ x ∈ deck2, 1 ≤ x.rank :=
      fun x hx => hranks1 x (hs2 x hx)
    have hranks3 : ∀ x ∈ deck3, 1 ≤ x.rank :=
      fun x hx => hranks2 x (hs3 x hx)
    have hranks4 : ∀ x ∈ deck4, 1 ≤ x.rank :=
      fun x hx => hranks3 x (hs4 x hx)
    have hp12 : ∀ x ∈ [p1, p2], 1 ≤ x.rank := by
      intro x hx
      simp only [List.mem_cons, List.not_mem_nil, or_false] at hx
      rcases hx with h1 | h1
      · rw [h1]
        exact hranks p1 hm1
      · rw [h1]
        exact hranks1 p2 hm2
    cases hpt : playerTurn ds deck4 [p1, p2] with
    | error e =>
      simp only [hpt] at h
      injection h with h1
      subst h1
      refine playerTurn_noDeckEx ds deck4 [p1, p2] hranks4 hp12 ?_ hpt
      simp only [List.length_cons, List.length_nil]
      omega
    | ok pr =>
      simp only [hpt] at h
      obtain ⟨hb, hnb, ilen, _, icards, ideck⟩ :=
        playerTurn_ok_spec ds deck4 [p1, p2] pr hpt
      split at h
      · exact absurd h (by simp)
      · rename_i hbust
        have hbustf : pr.busted = false := by
          cases hbb : pr.busted
          · rfl
          · exact absurd hbb hbust
        have hcards_ranks : ∀ x ∈ pr.cards, 1 ≤ x.rank := by
          intro x hx
          rcases icards x hx with hx2 | hx2
          · exact hp12 x hx2
          · exact hranks4 x hx2
        have hc21 : pr.cards.length ≤ 21 := by
          have h1 := length_le_hand_value_cards pr.cards hcards_ranks
          have h2 := hnb hbustf
          omega
        cases hdt : dealerTurn pr.deck [up, hid] with
        | error e =>
          simp only [hdt] at h
          injection h with h1
          subst h1
          refine dealerTurn_noDeckEx pr.deck [up, hid]
            (fun x hx => hranks4 x (ideck x hx)) ?_ ?_ hdt
          · intro x hx
            simp only [List.mem_cons, List.not_mem_nil, or_false] at hx
            rcases hx with h1 | h1
            · rw [h1]
              exact hranks2 up hm3
            · rw [h1]
              exact hranks3 hid hm4
          · simp only [List.length_cons, List.length_nil] at ilen ⊢
            omega
        | ok trip =>
          obtain ⟨dk, dcs, dms⟩ := trip
          simp only [hdt] at h
          exact absurd h (by simp)
  · intro out hout
    obtain ⟨p1, d1, p2, d2, up, d3, hid, d4, pr, hd1, hd2, hd3, hd4, hpt,
      hplayer, _, hcase⟩ := play_one_round_ok_spec deck ds out hout
    obtain ⟨_, hl1, hs1⟩ := draw_some hd1
    obtain ⟨_, hl2, _⟩ := draw_some hd2
    obtain ⟨_, hl3, _⟩ := draw_some hd3
    obtain ⟨_, hl4, _⟩ := draw_some hd4
    obtain ⟨hb, hnb, ilen, _, icards, ideck⟩ :=
      playerTurn_ok_spec ds d4 [p1, p2] pr hpt
    simp only [List.length_cons, List.length_nil] at ilen
    rcases hcase with ⟨_, _, hdeal⟩ | ⟨hbustf, dk, dms, hdt, _⟩
    · rw [hplayer, hdeal]
      simp only [List.length_cons, List.length_nil]
      omega
    · obtain ⟨_, dlen, _, _, _⟩ := dealerTurn_ok_spec pr.deck [up, hid]
        dk out.dealer dms hdt
      simp only [List.length_cons, List.length_nil] at dlen
      rw [hplayer]
      omega

/-- Closed instance of claim C9 on the unshuffled fresh deck. -/
theorem claim9_deck_sufficiency_witness :
    play_one_round fresh_deck [] ≠ .error .deckExhausted :=
  (claim9_deck_sufficiency fresh_deck [] (List.Perm.refl _)).1

/-- Claim C10: every terminal result message carries the fixed filler
card rank 1, suit 0 — `send_final_result` encodes exactly
`(result, 1, 0)` and it decodes back to rank 1 and suit 0, and in any
completed round every sent message whose result field is not
`RES_NOT_OVER` has rank field 1 and suit field 0. -/
theorem claim10_terminal_filler_card :
    (∀ r, r ≤ 3 → ∃ b, send_final_result r = .ok b ∧
      unpack_payload_server b = .ok (r, 1, 0)) ∧
    (∀ deck ds out, play_one_round deck ds = .ok out →
      ∀ m ∈ out.trace, m.1 ≠ RES_NOT_OVER → m.2.1 = 1 ∧ m.2.2 = 0) := by
  constructor
  · intro r hr
    refine ⟨[171, 205, 220, 186, 4, r, 0, 1, 0], ?_, ?_⟩
    · unfold send_final_result
      have h := pack_payload_server_eq r 1 0 hr (by omega) (by omega)
        (by omega)
      simpa using h
    · have h := unpack_pack_payload_server r 1 0 hr (by omega) (by omega)
      simpa using h
  · intro deck ds out h m hm hne
    obtain ⟨p1, d1, p2, d2, up, d3, hid, d4, pr, _, _, _, _, _, _,
      ⟨pre, htr, hpre⟩, _⟩ := play_one_round_ok_spec deck ds out h
    rw [htr] at hm
    rcases List.mem_append.mp hm with hm2 | hm2
    · exact absurd (hpre m hm2) hne
    · simp only [List.mem_singleton] at hm2
      subst hm2
      exact ⟨rfl, rfl⟩

/-- Closed instance of claim C10: the LOSS code round-trips with the
filler Ace of suit 0, and the terminal message of a concrete busted
round carries rank 1 and suit 0. -/
theorem claim10_terminal_filler_card_witness :
    (∃ b, send_final_result 2 = .ok b ∧
      unpack_payload_server b = .ok (2, 1, 0)) ∧
    (((2 : Nat), (1 : Nat), (0 : Nat)).2.1 = 1 ∧
      ((2 : Nat), (1 : Nat), (0 : Nat)).2.2 = 0) := by
  have hp : play_one_round [⟨6, 0⟩, ⟨7, 1⟩, ⟨10, 1⟩, ⟨10, 2⟩, ⟨10, 0⟩]
      [Decision.hit] =
      .ok ⟨RES_LOSS, [⟨10, 0⟩, ⟨10, 2⟩, ⟨6, 0⟩], [⟨10, 1⟩, ⟨7, 1⟩], [],
        [(0, 10, 0), (0, 10, 2), (0, 10, 1), (0, 6, 0), (2, 1, 0)]⟩ := by
    rfl
  exact ⟨claim10_terminal_filler_card.1 2 (by decide),
    claim10_terminal_filler_card.2 _ _ _ hp (2, 1, 0) (by decide)
      (by decide)⟩

end Blackjack
